import Mathlib

/-
Verification of the cdcgo content-defined chunking library.

The Go sources are shallowly embedded as Lean functions:
  * machine bytes are `Fin 256`; `uint64` arithmetic is `Nat` with explicit `% 2 ^ 64`;
  * Go `int`-valued sizes (Params fields, chunk sizes, offsets) are `Int`;
  * Go maps keyed by hex-hash strings are association lists with an
    overwrite-on-insert operation (`mapInsert`), matching `m[k] = v`;
  * the `io.Reader` read result of one `Read` call is a pair
    (bytes obtained, optional error), with `io.EOF` one of the errors;
    the `bytes.Reader` source used by the tests is embedded as a byte
    list that is drained in order;
  * the pluggable hash provider (sha256 / sha1 / blake3 live outside this
    repository) is an abstract digest function `H : List Byte → List Byte`.
-/

namespace Cdcgo

/-- A machine byte. -/
abbrev Byte := Fin 256

/-! ## fastcdc: gear table (gear.go part of package fastcdc) -/

/-- The GearTable is a precomputed set of 256 64-bit values used for the
rolling hash; embedded as a function from byte values to their entries. -/
def GearTable := Fin 256 → Nat

/-- The 256 constants of the default gear table, in source order. -/
def gearTableVals : Array Nat := #[
  0xa8e274c800dc3426, 0x2283b1dba800c778, 0x7d18b312bdae38d4, 0xf23575802697a80f,
  0x021bd63f29d26cfb, 0x5483ea27943dc0fd, 0x3748335a62d263fe, 0x2f4652c43dc4df53,
  0x772d202dc11f17a0, 0x65b3d2487fe08ab8, 0x2030509db122a51b, 0x6390ba3011ff87e0,
  0x9a244c9dd0a30f18, 0xaef796c84341f1e2, 0x463810a0140bbe30, 0x06b1f6a59cf2e4b8,
  0xfb192cd4ddaf9639, 0xc4bc6c4097699222, 0x5615075404124e5d, 0xeee6dabc715e65c8,
  0x063f345a1a8d5e9f, 0x410f0751c77d457c, 0xe5872f972e503f1f, 0x9c63caac09dca796,
  0xa799423a28d01b2e, 0x016f76e7b9fa4e73, 0x7562064b04e31c61, 0xc411b06766a9c316,
  0x6d1275d8efc6bb07, 0x7fc269e351fcfaa4, 0xaf7acc1e9de5e879, 0x090052c66bcd8230,
  0x598db6abf4ade850, 0xb7786e01079447af, 0x3d8f9ced9faee7c9, 0x5eba681c0d6419b0,
  0xad2ac2408fcd840f, 0x5a673c290b6535b1, 0x4128a3294ea896fc, 0xd0db727721e66477,
  0x3bb13879af31209d, 0x1de069e44eed859e, 0xaf42548fd115c669, 0xeefdab8ecabcf37b,
  0x3af9c7da3f1619b2, 0x845f3194001c56d1, 0xb9eff31fccfbbbd0, 0x619013f8af84c430,
  0x90a60b69c5794afb, 0xe417c4146c9228f4, 0xcc6ab6f16a7675c3, 0x64cfe5f31c5713a4,
  0xe660a815bb350e7f, 0x538a278d0ed17d89, 0x4d3c88272ffae16c, 0xb890212748f05003,
  0x762fea9400580ded, 0x4baee480a336b022, 0xd334db0e7869334d, 0xde08ee4786fcfb36,
  0xc0d69dc8a5e7d60c, 0x48a440907b52dfa7, 0xd080c6ae4e9026e1, 0x37a3d9cea5293217,
  0x6dab36d9042eccfa, 0x56c118ca91287d33, 0x529973fb776f5e7d, 0x9cb288e518dd21bb,
  0xfb45eca569b093a4, 0x393ea352b5ce85ec, 0x39f94ecd82360633, 0x28421347b0d39b39,
  0xa74871d5d3163fe2, 0x7dc02421b4327997, 0xa9e4384b64d003f5, 0x33a8522663170af9,
  0x91fae1ac83c9aba9, 0x3d24b7458398b9ea, 0x6c91e083bc25ad7b, 0xf51ba6bea84ae52f,
  0x2429a4bbd9630be5, 0x7a9562ba670b4cb9, 0x0d52b8eac67a032e, 0xb661197302947e74,
  0x0d84d05aba8fa107, 0x739ce6d45d4b1041, 0x6c6febd54edb20da, 0x75f27d8502a83cf3,
  0x7ef136e4ae2daea1, 0xf0ad2eedf03a153a, 0x6fbc9a54827ed061, 0xc50b10705f360add,
  0x4da3698e155fd948, 0xd0fb8eb7803f1b89, 0xda1d2647d8a4267c, 0x099ef98c2aaea670,
  0x59acfb83582dc3ce, 0x3a7e195bca5d90d1, 0x14db57dbb0c963c3, 0x36bf562619996d18,
  0x22ca33c42973b8fb, 0xc9cc1ee345d4374f, 0x742eaab89667259d, 0x6a1490deb0b5ecda,
  0xccfa73ac4c9c52f2, 0x1f7813a144a70f17, 0xbf5a6f001ee33da4, 0x934c17cb23a98eb9,
  0xeb6b91934c6ee5f1, 0x4c2d69714888020d, 0xe65936677e0212cf, 0x21db475c47dd0135,
  0x992ffcc64bf41cfa, 0xb7ca2393d74dca32, 0x75f013aabe3bc31e, 0x6d1c3b57cdbbc1ed,
  0x859442cfaf1f3547, 0x3be3273992144288, 0x9396f75768ba2640, 0x9d9bcaa53b793b2a,
  0xdedb23dc91b413b8, 0xf6c200fee7960543, 0x8a046cba343cad4c, 0x611a7018e8ca9a00,
  0xae92ae17d8d62cf4, 0xcb9191391a5775d0, 0xa89c4dc20a3750fc, 0x2608e0651ca0ec7e,
  0x9046c783fb3762ca, 0x51f13ffb56bc6c6b, 0xcbab5ca3097d8c1c, 0x4ee15d2645e7da7c,
  0xe7a87ed7adedf61d, 0x43ee87b9fd823aec, 0xf7d089c09a88f850, 0xb4f5b0399a51fcc4,
  0x8d652af2d6d314f9, 0x461984cd10fcae30, 0x711d20f33a94c6d9, 0x88e505be1e14eb35,
  0x4fc35bacc25cc5ce, 0x9e31efa7db761edb, 0x03c6ba500b04b657, 0x2cb8f41293a4ad56,
  0xda1c1dade70a68b9, 0x314b3b3016e5b0bc, 0x01c14723ed391d5b, 0xf1227c2eaf475bf9,
  0x7c3cfb0e40ab65a1, 0xf07f65f512e10af9, 0x6badb96671d52230, 0x53a1d2a785b25cd9,
  0x413ab51cf0151c05, 0x81524ac7a9eb427a, 0x3f84ff0b32601064, 0x62dd8d866756b7da,
  0x3ab7c63d7139d5f2, 0x3e24ea466c5d71f7, 0xdb438de3ff1779cf, 0xbc7d3f37ab0e376b,
  0x0a19fad2c7a1cb39, 0xdfd35d33d207dd03, 0x50a4938f91664822, 0xc1c0a47e1a1c2dd2,
  0x85c7c514bd912e33, 0x57266f909a5691ab, 0xf4529c9f730ef41c, 0xec69a5d2fa5caecd,
  0xebeb026bd27793ea, 0x521a7f2a09a7168b, 0xd719acb8e2bfe2e5, 0x595daa7b030b24df,
  0x3c7ac898f8cca168, 0x0962c16535e6eb10, 0x2e68535b78bbef5c, 0x36e10c43b3f96b67,
  0xb6a73e3f4944e3bd, 0x30fb0a1d5b6e429f, 0x5c768a8362574cd3, 0x61f347c4d3892040,
  0xc35938d57dcfb47d, 0xbaf7f851807fa54c, 0x9a0d33799cf57a0f, 0x29a5b1a8b4f406ad,
  0x32e7b0e4025b798e, 0x6560b507decc7b29, 0x4fcc09955a2c6ace, 0x2c43d90c63b52f36,
  0x15321080112b61d0, 0xa1a20010c5e9b705, 0x13325781a8d18f4b, 0xc3f901161910366c,
  0x0016254d301e17a5, 0x12885de6c8451c5c, 0x4c080c9b6634d6dc, 0x374a6e454fa473fd,
  0x11759d42680e280c, 0xd29e91add5e2c92c, 0x2308d1cf8ad29153, 0x14bdb6038d0e64db,
  0xf309b00cb295dd94, 0x2c33838a6ffa8d3a, 0x1c5e0ba3069af768, 0xc795a950b0c5bf5a,
  0x840d361a91767b09, 0x334ac0b7167dd6e0, 0xdf971bd075cb01fd, 0xb4cb98d7d8b4e0db,
  0x1be90f883e8f75ea, 0x67a46c7158f8d494, 0x7abc2daad8f70fba, 0xabe2b26dbd4de11b,
  0x0ef6f83bf6a7c72a, 0x03e0b32cfefa2344, 0x23dd87b9d6edabd1, 0x77a4e7becd96a1fa,
  0x1d6cfb71b38c0b6d, 0xc73449cb7a2aedc8, 0x0fcc958b554db019, 0x532ae6c83ef3f949,
  0x15d3cf4016daa369, 0xc7b966777ebd2c44, 0x00b103028e51d837, 0xcf66ab654adebbe8,
  0xcb3b9736fc0ad126, 0xcd2184f47865bbcc, 0x7c8ea5d23241d100, 0x29df0a01061fba42,
  0x239996829147b928, 0xfa3c6899cdc2019c, 0xb2a8e4c6f920d9a3, 0xaa7292efc9b8d71b,
  0x1bfa947c9fabe298, 0xbba4db4e16c68813, 0x734c2be8dbe6b759, 0x120983386c342014,
  0xa04e7278b1facd56, 0xb8de48dfe80d6869, 0x533f0880bbabb6f5, 0xdf7325366caa0b1f,
  0xba30701dea69bf05, 0x217a9041639496b2, 0x92d734aac958a230, 0xa8da56038f2e8279,
  0x7e183c4512025814, 0xf2c1f2f5067202a8, 0x6caf86ecb5840f6a, 0x1c09c53b9d7aa616,
  0x6f79acb50864d775, 0xf02f3a72f11b760d, 0xa2c897d6a211ddff, 0x6a70d3ce5a19bcef,
  0x0c39e995c7e8d565, 0xf6c28ad4a1b5f635, 0x92206a0b0e669f67, 0xed7ffb4876c3f1b2
]

/-- Default gear table (`var gearTable = GearTable{...}` in the source). -/
def gearTable : GearTable := fun i => gearTableVals.getD i.val 0

/-! ## fastcdc: Params (params.go) -/

/-- Params defines the configuration for FastCDC chunking. -/
structure Params where
  MinSize : Int
  AvgSize : Int
  MaxSize : Int
  Mask : Nat
  Gear : Option GearTable

/-- Number of loop iterations of `for (1 << bits) < avg { bits++ }`:
the smallest `bits` with `2 ^ bits ≥ avg` (for `avg ≤ 1` that is 0). -/
def maskBits (avg : Int) : Nat :=
  if avg ≤ 1 then 0 else (avg - 1).toNat.log2 + 1

/-- NewParams creates a new FastCDC parameter set with optional custom GearTable.
The mask is automatically calculated from avg size. -/
def NewParams (min avg max : Int) (gear : Option GearTable) : Params :=
  { MinSize := min
    AvgSize := avg
    MaxSize := max
    Mask := 2 ^ maskBits avg - 1
    Gear := gear }

/-- GetGear returns the GearTable to use for a Chunker: the custom table in
Params if present, otherwise the default `gearTable`. -/
def GetGear (p : Params) : GearTable :=
  match p.Gear with
  | some g => g
  | none => gearTable

/-! ## fastcdc: Chunker (fastcdc.go) -/

/-- Chunker holds state for FastCDC. -/
structure Chunker where
  P : Params

/-- NewChunker wraps a parameter set. -/
def NewChunker (params : Params) : Chunker := ⟨params⟩

/-- The byte loop of `Chunker.NextBoundary`: `size` is the running count of
consumed bytes, `hash` the 64-bit rolling accumulator
(`hash = (hash << 1) + table[b]` with wrapping arithmetic). -/
def nextBoundaryGo (p : Params) (table : GearTable) :
    List Byte → Int → Nat → Int
  | [], size, _ => size
  | b :: rest, size, hash =>
    let size' := size + 1
    let hash' := ((hash <<< 1) + table b) % 2 ^ 64
    if size' < p.MinSize then
      nextBoundaryGo p table rest size' hash'
    else if p.AvgSize ≤ size' ∧ hash' &&& p.Mask = 0 then
      size'
    else if p.MaxSize ≤ size' then
      size'
    else
      nextBoundaryGo p table rest size' hash'

/-- NextBoundary finds the next chunk boundary given a buffer of data,
as an offset in bytes relative to the buffer start. -/
def Chunker.NextBoundary (c : Chunker) (buf : List Byte) : Int :=
  nextBoundaryGo c.P (GetGear c.P) buf 0 0

/-- One pass of the test loop `for offset < len(data) { cut := NextBoundary(data[offset:]) }`:
the sequence of cut lengths produced by chunking `data` to exhaustion.
Fueled with `data.length`, which suffices since every cut on a nonempty
buffer consumes at least one byte. -/
def cutSequenceGo (ck : Chunker) : Nat → List Byte → List Int
  | 0, _ => []
  | _, [] => []
  | fuel + 1, b :: rest =>
    let cut := ck.NextBoundary (b :: rest)
    cut :: cutSequenceGo ck fuel ((b :: rest).drop cut.toNat)

/-- The cut-length sequence of chunking `data` with chunker `ck`. -/
def cutSequence (ck : Chunker) (data : List Byte) : List Int :=
  cutSequenceGo ck data.length data

/-! ## types: Chunk (package types / model / chunk) -/

/-- Chunk represents a contiguous piece of input data: byte offset within
the original input, length in bytes and content hash. -/
structure Chunk where
  Offset : Int
  Size : Int
  Hash : List Byte
deriving DecidableEq

/-- One lowercase hex digit, as in Go `encoding/hex`. -/
def hexDigit (n : Nat) : Char :=
  Char.ofNat (if n < 10 then 48 + n else 87 + n)

/-- `hex.EncodeToString`: lowercase hex encoding of a byte slice. -/
def hexEncode (bs : List Byte) : String :=
  String.mk (bs.flatMap fun b => [hexDigit (b.val / 16), hexDigit (b.val % 16)])

/-- `Chunk.HexHash` returns the hash in hex string form. -/
def Chunk.HexHash (c : Chunk) : String := hexEncode c.Hash

/-! ## cdcgo: Hasher (hasher.go) -/

/-- Hasher is a factory for hash.Hash based on a named algorithm. -/
structure Hasher where
  Name : String

/-- `Hasher.New` creates a fresh hash instance for the chosen algorithm;
the digest functions themselves (sha256/sha1/blake3) live outside this
repository, so the instance is abstracted to `Unit`. -/
def Hasher.New (h : Hasher) : Except String Unit :=
  match h.Name with
  | "sha256" => .ok ()
  | "sha1" => .ok ()
  | "blake3" => .ok ()
  | _ => .error ("unsupported hash algorithm: " ++ h.Name)

/-! ## chunk: ChunkReader (reader.go) -/

/-- The configuration part of a ChunkReader (its immutable fields). -/
structure ChunkReaderCfg where
  hashAlgo : String
  bufSize : Nat
  chunker : Chunker

/-- NewChunkReader validates `bufSize`, defaults an empty `hashAlgo` to
"sha256" and returns the reader.  (It performs no validation of the hash
algorithm name itself.) -/
def NewChunkReader (hashAlgo : String) (bufSize : Int) (chunker : Chunker) :
    Except String ChunkReaderCfg :=
  if bufSize ≤ 0 then .error "bufSize must be > 0"
  else
    let algo := if hashAlgo = "" then "sha256" else hashAlgo
    .ok ⟨algo, bufSize.toNat, chunker⟩

/-- Result of one `Read` call on the source, as seen by `Next`:
`eof` is `io.EOF`, `other` any other read error. -/
inductive ReadErr where
  | eof
  | other (msg : String)
deriving DecidableEq

/-- What one `Next()` call returns: a chunk descriptor with its raw bytes,
or an error (`fail .eof` is the end-of-stream signal `io.EOF`). -/
inductive NextOut where
  | chunk (c : Chunk) (data : List Byte)
  | fail (e : ReadErr)
deriving DecidableEq

/-- The mutable state of a ChunkReader over a `bytes.Reader`-style source:
`src` is the not-yet-read suffix of the source, `pending` the valid
leftover prefix `buf[0:leftover]` of the reusable buffer, `offset` the
absolute stream offset.  The fixed-capacity buffer is represented by its
valid prefix; its capacity `bufSize` is passed alongside. -/
structure RState where
  src : List Byte
  pending : List Byte
  offset : Int
deriving DecidableEq

/-- The body of `ChunkReader.Next` after the `Read` call, parametrised by
the read outcome: `taken` are the bytes the read placed in
`buf[leftover:]`, `rerr` its error value.  `H` is the digest function of
the selected (supported) hash algorithm.  Returns what `Next` returns,
plus the new `leftover` contents and new `offset`. -/
def nextCore (ck : Chunker) (H : List Byte → List Byte)
    (pending taken : List Byte) (rerr : Option ReadErr) (offset : Int) :
    NextOut × List Byte × Int :=
  let n := taken.length
  let total := pending.length + n
  let valid := pending ++ taken
  if 0 < total ∧ rerr = some .eof then
    -- leftover data at EOF: emit it all as the final chunk
    (.chunk ⟨offset, (total : Int), H valid⟩ valid, [], offset + (total : Int))
  else if total = 0 ∧ rerr.isSome then
    (.fail (rerr.getD .eof), pending, offset)
  else if n = 0 ∧ rerr.isSome then
    (.fail (rerr.getD .eof), pending, offset)
  else
    let cut := ck.NextBoundary valid
    let cutN := cut.toNat
    (.chunk ⟨offset, cut, H (valid.take cutN)⟩ (valid.take cutN),
      valid.drop cutN, offset + cut)

/-- One `Next()` call with a `bytes.Reader` source: the read fills the free
space `buf[leftover:]` with the next source bytes and reports `io.EOF`
exactly when the source is exhausted. -/
def readerNext (ck : Chunker) (H : List Byte → List Byte) (bufSize : Nat)
    (s : RState) : NextOut × RState :=
  let space := bufSize - s.pending.length
  let taken := s.src.take space
  let rerr : Option ReadErr := if s.src.isEmpty then some .eof else none
  let res := nextCore ck H s.pending taken rerr s.offset
  (res.1, ⟨s.src.drop space, res.2.1, res.2.2⟩)

/-- Drive `Next()` until it stops returning chunks (the consumer loop of
the tests), collecting the returned (descriptor, bytes) pairs.  Fueled;
`src.length + 1` steps always suffice. -/
def readAll (ck : Chunker) (H : List Byte → List Byte) (bufSize : Nat) :
    Nat → RState → List (Chunk × List Byte)
  | 0, _ => []
  | fuel + 1, s =>
    match readerNext ck H bufSize s with
    | (.chunk c d, s') => (c, d) :: readAll ck H bufSize fuel s'
    | (.fail _, _) => []

/-- Chunk an entire finite stream from a freshly constructed reader. -/
def chunkStream (ck : Chunker) (H : List Byte → List Byte) (bufSize : Nat)
    (src : List Byte) : List (Chunk × List Byte) :=
  readAll ck H bufSize (src.length + 1) ⟨src, [], 0⟩

/-! ## index: maps keyed by hex hash -/

/-- Go map from hex-hash strings to chunks, as an association list whose
entries have pairwise distinct keys maintained by `mapInsert`. -/
abbrev ChunkMap := List (String × Chunk)

/-- Go map assignment `m[k] = v`: at most one entry per key, the new value
replacing any old one. -/
def mapInsert (m : ChunkMap) (k : String) (v : Chunk) : ChunkMap :=
  (k, v) :: m.filter fun kv => kv.1 ≠ k

/-- MemoryIndex is the in-memory implementation of Index: a map guarded by
a readers-writer lock (all operations here are the lock-held bodies). -/
def MemoryIndex := ChunkMap

/-- `NewMemoryIndex` creates an empty MemoryIndex. -/
def NewMemoryIndex : MemoryIndex := []

/-- `MemoryIndex.Add` inserts a chunk, keyed by its hex-encoded hash
(`m.store[hex.EncodeToString(ch.Hash)] = ch`); it never fails. -/
def MemoryIndex.Add (m : MemoryIndex) (ch : Chunk) : MemoryIndex :=
  mapInsert m (hexEncode ch.Hash) ch

/-- `MemoryIndex.Exists` reports whether a chunk with the given hash exists. -/
def MemoryIndex.Exists (m : MemoryIndex) (hash : String) : Bool :=
  (List.lookup hash m).isSome

/-- `MemoryIndex.Get` retrieves a chunk by its hash; `some` plays the role
of the `(chunk, true)` return. -/
def MemoryIndex.Get (m : MemoryIndex) (hash : String) : Option Chunk :=
  List.lookup hash m

/-! ## storage: PersistentIndexJSON (persistent_index_json.go) -/

/-- `PersistentIndexJSON.Add`, success path: under the exclusive lock the
code clones the map, inserts the entry (`newStore[hex(ch.Hash)] = ch`),
rewrites the JSON document via temp file + fsync + rename, and commits the
new map to memory.  A failed flush returns early without committing; the
embedding covers the committed result. -/
def PersistentIndexJSON.Add (store : ChunkMap) (ch : Chunk) : ChunkMap :=
  mapInsert store (hexEncode ch.Hash) ch

/-- `PersistentIndexJSON.ExistsWithErr`: consult the in-memory map; on a
miss call `p.load()` — which on success replaces the map with the on-disk
document and on failure leaves it unchanged — and check again.  The code
discards `p.load()`'s returned error, so the error component of the result
is always `none`.  `loadResult` is the outcome of reading and unmarshalling
the on-disk document. -/
def PersistentIndexJSON.ExistsWithErr (store : ChunkMap)
    (loadResult : Except String ChunkMap) (hash : String) :
    Bool × Option String :=
  if (List.lookup hash store).isSome then (true, none)
  else
    let store' := match loadResult with
      | .ok m => m
      | .error _ => store
    ((List.lookup hash store').isSome, none)

/-- `PersistentIndexJSON.Exists` delegates to `ExistsWithErr`, ignoring the
error component. -/
def PersistentIndexJSON.Exists (store : ChunkMap)
    (loadResult : Except String ChunkMap) (hash : String) : Bool :=
  (PersistentIndexJSON.ExistsWithErr store loadResult hash).1

/-! ## chunk: ChunkWriter (writer.go) -/

/-- ChunkWriter writes chunks to an underlying storage and avoids
duplicates using an Index: `sink` is the accumulated content of the
underlying `io.Writer` (a `bytes.Buffer`), `index` the dedupe index
(a MemoryIndex by default), `offset` the write position. -/
structure ChunkWriter where
  sink : List Byte
  index : MemoryIndex
  offset : Int

/-- `NewChunkWriter` over an empty buffer with a fresh MemoryIndex. -/
def NewChunkWriter : ChunkWriter :=
  { sink := [], index := NewMemoryIndex, offset := 0 }

/-- `ChunkWriter.WriteChunk`: under the writer's mutex, skip and report a
duplicate if the index already has the chunk's hex hash; otherwise write
the data, register the chunk in the index and advance the offset.
Returns `(written, duplicate, err)` and the new writer state; buffer
writes and MemoryIndex.Add cannot fail, so `err` is always `none` here. -/
def ChunkWriter.WriteChunk (cw : ChunkWriter) (chunk : Chunk)
    (data : List Byte) : (Int × Bool × Option String) × ChunkWriter :=
  let hashkey := hexEncode chunk.Hash
  if cw.index.Exists hashkey then
    ((0, true, none), cw)
  else
    ((data.length, false, none),
      { sink := cw.sink ++ data
        index := cw.index.Add chunk
        offset := cw.offset + data.length })

/-! ## storage: FSStorage (fs.go) -/

/-- FSStorage: file-backed chunk storage combined with an Index.  `files`
is the contents of the root directory (file name → bytes), `index` the
embedded dedupe index (a MemoryIndex, as in the tests and Scenario C). -/
structure FSStorage where
  files : List (String × List Byte)
  index : MemoryIndex

/-- `NewFSStorage` over a fresh (empty) directory with a MemoryIndex. -/
def NewFSStorage : FSStorage := { files := [], index := NewMemoryIndex }

/-- Directory-level file creation/overwrite (`os.Create` + write). -/
def fsWrite (files : List (String × List Byte)) (name : String)
    (data : List Byte) : List (String × List Byte) :=
  (name, data) :: files.filter fun kv => kv.1 ≠ name

/-- Directory-level file removal (`os.Remove` / the disappearing rename
source). -/
def fsRemove (files : List (String × List Byte)) (name : String) :
    List (String × List Byte) :=
  files.filter fun kv => kv.1 ≠ name

/-- `FSStorage.Save`: under the mutex, look the hex hash up in the index
and skip duplicates; otherwise write the data to `<hash>.tmp`, fsync,
rename it onto `<hash>` and register the chunk in the index.  The pure
embedding covers the success path of each filesystem call, so the returned
error is always `none`. -/
def FSStorage.Save (fs : FSStorage) (chunk : Chunk) (data : List Byte) :
    Option String × FSStorage :=
  let key := chunk.HexHash
  if fs.index.Exists key then
    (none, fs)
  else
    let tmpPath := key ++ ".tmp"
    let files1 := fsWrite fs.files tmpPath data
    let files2 := fsWrite (fsRemove files1 tmpPath) key data
    (none, { files := files2, index := fs.index.Add chunk })

/-- `FSStorage.Load`: the index is authoritative — a hash it lacks is
`os.ErrNotExist` even if a stray blob exists; otherwise read the blob. -/
def FSStorage.Load (fs : FSStorage) (hash : String) :
    Except String (List Byte) :=
  if (fs.index.Exists hash) = false then .error "file does not exist"
  else
    match List.lookup hash fs.files with
    | some d => .ok d
    | none => .error "failed to read chunk"

/-! ## Lemmas about the boundary loop -/

/-- The loop consumes at most the whole buffer. -/
theorem nextBoundaryGo_le (p : Params) (t : GearTable) :
    ∀ (buf : List Byte) (size : Int) (hash : Nat),
      nextBoundaryGo p t buf size hash ≤ size + buf.length
  | [], size, hash => by simp [nextBoundaryGo]
  | b :: rest, size, hash => by
    have ih := nextBoundaryGo_le p t rest (size + 1) (((hash <<< 1) + t b) % 2 ^ 64)
    simp only [nextBoundaryGo, List.length_cons]
    split
    · push_cast at ih ⊢; omega
    · split
      · push_cast; omega
      · split
        · push_cast; omega
        · push_cast at ih ⊢; omega

/-- The loop consumes at least one byte of a nonempty buffer. -/
theorem lt_nextBoundaryGo (p : Params) (t : GearTable) :
    ∀ (buf : List Byte) (size : Int) (hash : Nat), buf ≠ [] →
      size + 1 ≤ nextBoundaryGo p t buf size hash
  | [], _, _, h => absurd rfl h
  | b :: rest, size, hash, _ => by
    have ih := lt_nextBoundaryGo p t rest (size + 1) (((hash <<< 1) + t b) % 2 ^ 64)
    simp only [nextBoundaryGo]
    split
    · rcases rest with _ | ⟨c, rest⟩
      · simp [nextBoundaryGo]
      · have := ih (by simp); omega
    · split
      · omega
      · split
        · omega
        · rcases rest with _ | ⟨c, rest⟩
          · simp [nextBoundaryGo]
          · have := ih (by simp); omega

/-- Bounds of the boundary loop under sane parameters: started strictly
below `MaxSize` with at least `MaxSize` bytes in reach, it stops between
`MinSize` and `MaxSize`. -/
theorem nextBoundaryGo_bounds (p : Params) (t : GearTable)
    (hma : p.MinSize ≤ p.AvgSize) (ham : p.AvgSize ≤ p.MaxSize) :
    ∀ (buf : List Byte) (size : Int) (hash : Nat), size < p.MaxSize →
      p.MaxSize ≤ size + buf.length →
      p.MinSize ≤ nextBoundaryGo p t buf size hash ∧
        nextBoundaryGo p t buf size hash ≤ p.MaxSize
  | [], size, hash, hlt, hreach => by simp at hreach; omega
  | b :: rest, size, hash, hlt, hreach => by
    have ih := nextBoundaryGo_bounds p t hma ham rest (size + 1)
      (((hash <<< 1) + t b) % 2 ^ 64)
    simp only [List.length_cons] at hreach
    simp only [nextBoundaryGo]
    split
    · refine ih (by omega) (by push_cast at hreach ⊢; omega)
    · split
      · omega
      · split
        · omega
        · refine ih (by omega) (by push_cast at hreach ⊢; omega)

/-- `NextBoundary` on a nonempty buffer cuts between 1 and the buffer
length; on the empty buffer it returns 0. -/
theorem nextBoundary_pos_le (ck : Chunker) (buf : List Byte) (h : buf ≠ []) :
    1 ≤ ck.NextBoundary buf ∧ ck.NextBoundary buf ≤ (buf.length : Int) := by
  constructor
  · simpa using lt_nextBoundaryGo ck.P (GetGear ck.P) buf 0 0 h
  · simpa using nextBoundaryGo_le ck.P (GetGear ck.P) buf 0 0

/-! ## Claim theorems: Chunker -/

/-- Claim C2: for every Params built by `NewParams(min, avg, max, gear)`
with `0 < min ≤ avg ≤ max` and every buffer of length `L ≥ MaxSize`,
`Chunker.NextBoundary` returns a cut `c` with `MinSize ≤ c ≤ MaxSize`. -/
theorem nextBoundary_bounds_of_maxSize_le_length
    (min avg max : Int) (gear : Option GearTable) (buf : List Byte)
    (h0 : 0 < min) (h1 : min ≤ avg) (h2 : avg ≤ max)
    (hL : max ≤ (buf.length : Int)) :
    min ≤ (NewChunker (NewParams min avg max gear)).NextBoundary buf ∧
      (NewChunker (NewParams min avg max gear)).NextBoundary buf ≤ max := by
  have := nextBoundaryGo_bounds (NewParams min avg max gear)
    (GetGear (NewParams min avg max gear)) (by exact h1) (by exact h2)
    buf 0 0 (by simp [NewParams]; omega) (by simp [NewParams]; omega)
  simpa [Chunker.NextBoundary, NewChunker, NewParams] using this

/-- Witness for C2 at `min = 1`, `avg = 2`, `max = 3` on a 3-byte buffer. -/
theorem nextBoundary_bounds_of_maxSize_le_length_witness :
    1 ≤ (NewChunker (NewParams 1 2 3 none)).NextBoundary [0, 1, 2] ∧
      (NewChunker (NewParams 1 2 3 none)).NextBoundary [0, 1, 2] ≤ 3 :=
  nextBoundary_bounds_of_maxSize_le_length 1 2 3 none [0, 1, 2]
    (by decide) (by decide) (by decide) (by decide)

/-- Claim C6, counterexample: on the empty buffer `NextBoundary` returns 0,
not a strictly positive cut. -/
theorem nextBoundary_empty_buffer_zero :
    ¬ 0 < (NewChunker (NewParams 1 2 3 none)).NextBoundary [] := by decide

/-- Claim C6 (amended): for every buffer and every Params,
`Chunker.NextBoundary` returns a cut `c` with `0 ≤ c ≤ len(buffer)`, and
`0 < c` whenever the buffer is nonempty; on the empty buffer `c = 0`. -/
theorem nextBoundary_pos_le_length (ck : Chunker) (buf : List Byte) :
    (buf = [] → ck.NextBoundary buf = 0) ∧
      (buf ≠ [] → 0 < ck.NextBoundary buf ∧
        ck.NextBoundary buf ≤ (buf.length : Int)) := by
  constructor
  · rintro rfl; rfl
  · intro h
    have := nextBoundary_pos_le ck buf h
    omega

/-- Witness for the amended C6 on a concrete nonempty buffer. -/
theorem nextBoundary_pos_le_length_witness :
    0 < (NewChunker (NewParams 1 2 3 none)).NextBoundary [7, 7] ∧
      (NewChunker (NewParams 1 2 3 none)).NextBoundary [7, 7] ≤ 2 := by
  have := (nextBoundary_pos_le_length (NewChunker (NewParams 1 2 3 none))
    [7, 7]).2 (by decide)
  simpa using this

/-- Claim C9: `NextBoundary` is deterministic — byte-for-byte identical
buffers, identical Params (MinSize, AvgSize, MaxSize, Mask) and identical
gear table yield the identical cut, and chunking the same byte sequence
twice yields identical cut-length sequences. -/
theorem nextBoundary_deterministic (ck₁ ck₂ : Chunker)
    (buf₁ buf₂ data₁ data₂ : List Byte)
    (hck : ck₁ = ck₂) (hbuf : buf₁ = buf₂) (hdata : data₁ = data₂) :
    ck₁.NextBoundary buf₁ = ck₂.NextBoundary buf₂ ∧
      cutSequence ck₁ data₁ = cutSequence ck₂ data₂ := by
  subst hck; subst hbuf; subst hdata; exact ⟨rfl, rfl⟩

/-- Witness for C9 at a concrete chunker and byte sequence. -/
theorem nextBoundary_deterministic_witness :
    (NewChunker (NewParams 1 2 3 none)).NextBoundary [1, 2, 3, 4] =
      (NewChunker (NewParams 1 2 3 none)).NextBoundary [1, 2, 3, 4] ∧
    cutSequence (NewChunker (NewParams 1 2 3 none)) [1, 2, 3, 4] =
      cutSequence (NewChunker (NewParams 1 2 3 none)) [1, 2, 3, 4] :=
  nextBoundary_deterministic _ _ _ _ _ _ rfl rfl rfl

/-! ## Lemmas about one `Next()` step -/

/-- Exhausted source, empty buffer: `Next` reports end-of-stream. -/
theorem readerNext_nil_nil (ck : Chunker) (H : List Byte → List Byte)
    (bufSize : Nat) (off : Int) :
    readerNext ck H bufSize ⟨[], [], off⟩ = (.fail .eof, ⟨[], [], off⟩) := by
  simp [readerNext, nextCore]

/-- Exhausted source, nonempty leftover: `Next` emits the leftover as the
final chunk. -/
theorem readerNext_nil_pending (ck : Chunker) (H : List Byte → List Byte)
    (bufSize : Nat) (off : Int) (pending : List Byte) (hp : pending ≠ []) :
    readerNext ck H bufSize ⟨[], pending, off⟩ =
      (.chunk ⟨off, (pending.length : Int), H pending⟩ pending,
        ⟨[], [], off + (pending.length : Int)⟩) := by
  have hl : 0 < pending.length := List.length_pos.mpr hp
  simp [readerNext, nextCore, hl]

/-- Nonempty source: `Next` takes the chunker path on the filled buffer. -/
theorem readerNext_cons (ck : Chunker) (H : List Byte → List Byte)
    (bufSize : Nat) (x : Byte) (xs pending : List Byte) (off : Int) :
    readerNext ck H bufSize ⟨x :: xs, pending, off⟩ =
      (let valid := pending ++ (x :: xs).take (bufSize - pending.length)
       let cut := ck.NextBoundary valid
       (.chunk ⟨off, cut, H (valid.take cut.toNat)⟩ (valid.take cut.toNat),
        ⟨(x :: xs).drop (bufSize - pending.length), valid.drop cut.toNat,
          off + cut⟩)) := by
  simp [readerNext, nextCore]

/-- Once source and buffer are both drained, no more chunks come out. -/
theorem readAll_empty (ck : Chunker) (H : List Byte → List Byte)
    (bufSize : Nat) : ∀ (fuel : Nat) (off : Int),
      readAll ck H bufSize fuel ⟨[], [], off⟩ = []
  | 0, _ => rfl
  | _ + 1, off => by simp [readAll, readerNext_nil_nil]

/-- Concatenation invariant of the streaming loop: as long as the leftover
fits strictly inside the buffer and enough fuel remains, the emitted byte
ranges concatenate to leftover ++ unread source, and the `Size` fields sum
to its length. -/
theorem readAll_concat (ck : Chunker) (H : List Byte → List Byte)
    (bufSize : Nat) :
    ∀ (fuel : Nat) (s : RState), s.pending.length < bufSize →
      s.src.length + s.pending.length < fuel →
      ((readAll ck H bufSize fuel s).map Prod.snd).flatten =
        s.pending ++ s.src ∧
      ((readAll ck H bufSize fuel s).map fun cd => cd.1.Size).sum =
        ((s.pending.length : Int) + (s.src.length : Int)) := by
  intro fuel
  induction fuel with
  | zero => intro s _ h2; omega
  | succ fuel ih =>
    rintro ⟨src, pending, off⟩ h1 h2
    simp only at h1 h2 ⊢
    match src with
    | [] =>
      match pending with
      | [] => simp [readAll, readerNext_nil_nil]
      | y :: ys =>
        rw [readAll, readerNext_nil_pending ck H bufSize off (y :: ys) (by simp)]
        simp [readAll_empty]
    | x :: xs =>
      rw [readAll, readerNext_cons]
      simp only []
      simp only [List.length_cons] at h2
      set space := bufSize - (pending : List Byte).length with hspace
      set valid := pending ++ (x :: xs).take space with hvalid
      set cut := ck.NextBoundary valid with hcut
      have hsp : 0 < space := by omega
      have hvne : valid ≠ [] := by
        rw [hvalid]
        intro hemp
        rcases List.append_eq_nil.mp hemp with ⟨-, h3⟩
        rcases List.take_eq_nil_iff.mp h3 with h4 | h4
        · omega
        · simp at h4
      have hcut1 : 1 ≤ cut := (nextBoundary_pos_le ck valid hvne).1
      have hcut2 : cut ≤ (valid.length : Int) := (nextBoundary_pos_le ck valid hvne).2
      have hcN : (cut.toNat : Int) = cut := Int.toNat_of_nonneg (by omega)
      have hcN1 : 1 ≤ cut.toNat := by omega
      have hcN2 : cut.toNat ≤ valid.length := by omega
      have hvl : valid.length = pending.length + min space (xs.length + 1) := by
        rw [hvalid]; simp
      have hrec := ih ⟨(x :: xs).drop space, valid.drop cut.toNat, off + cut⟩
        (show (valid.drop cut.toNat).length < bufSize by
          simp only [List.length_drop]; omega)
        (show ((x :: xs).drop space).length + (valid.drop cut.toNat).length
            < fuel by
          simp only [List.length_drop, List.length_cons]; omega)
      simp only at hrec
      obtain ⟨hr1, hr2⟩ := hrec
      refine ⟨?_, ?_⟩
      · rw [List.map_cons, List.flatten_cons, hr1, ← List.append_assoc,
          List.take_append_drop, hvalid, List.append_assoc, List.take_append_drop]
      · rw [List.map_cons, List.sum_cons, hr2]
        simp only [List.length_drop, List.length_cons]
        omega

/-! ## Claim theorems: ChunkReader -/

/-- Claim C1: for every finite input stream and every ChunkReader
constructed over it (any chunker, any digest, any positive buffer size),
concatenating the byte ranges returned by successive `Next()` calls until
end-of-stream reproduces the original stream exactly, and the returned
`Size` fields sum to the stream length. -/
theorem chunkStream_concat (ck : Chunker) (H : List Byte → List Byte)
    (bufSize : Nat) (src : List Byte) (hb : 0 < bufSize) :
    ((chunkStream ck H bufSize src).map Prod.snd).flatten = src ∧
    ((chunkStream ck H bufSize src).map fun cd => cd.1.Size).sum =
      (src.length : Int) := by
  have h := readAll_concat ck H bufSize (src.length + 1) ⟨src, [], 0⟩
    (by simpa using hb) (by simp)
  simpa [chunkStream] using h

/-- Witness for C1: a concrete 5-byte stream through a 4-byte buffer. -/
theorem chunkStream_concat_witness :
    ((chunkStream (NewChunker (NewParams 1 2 3 none)) (fun _ => []) 4
        [1, 2, 3, 4, 5]).map Prod.snd).flatten = [1, 2, 3, 4, 5] ∧
    ((chunkStream (NewChunker (NewParams 1 2 3 none)) (fun _ => []) 4
        [1, 2, 3, 4, 5]).map fun cd => cd.1.Size).sum = (5 : Int) :=
  chunkStream_concat (NewChunker (NewParams 1 2 3 none)) (fun _ => []) 4
    [1, 2, 3, 4, 5] (by decide)

/-- Claim C10: when one `Read` returns `n > 0` bytes together with the
end-of-stream signal, `Next` emits all buffered bytes (leftover plus the
new bytes) as one final chunk whose `Size` is the total buffered length —
the right-hand side never consults the chunker, and the final size can
exceed `Params.MaxSize`. -/
theorem nextCore_eof_final_chunk (ck : Chunker) (H : List Byte → List Byte)
    (pending taken : List Byte) (off : Int) (h : taken ≠ []) :
    nextCore ck H pending taken (some .eof) off =
      (.chunk ⟨off, ((pending.length + taken.length : Nat) : Int),
          H (pending ++ taken)⟩ (pending ++ taken), [],
        off + ((pending.length + taken.length : Nat) : Int)) ∧
    ∃ (ck' : Chunker) (pending' taken' : List Byte) (off' : Int) (c : Chunk)
      (d rest : List Byte) (o₂ : Int),
      taken' ≠ [] ∧
      nextCore ck' (fun _ => []) pending' taken' (some .eof) off' =
        (.chunk c d, rest, o₂) ∧
      ck'.P.MaxSize < c.Size := by
  constructor
  · have hl : 0 < taken.length := List.length_pos.mpr h
    simp [nextCore, hl]
  · exact ⟨NewChunker (NewParams 1 2 3 none), [], [0, 0, 0, 0], 0,
      ⟨0, 4, []⟩, [0, 0, 0, 0], [], 4, by decide, by decide, by decide⟩

/-- Witness for C10: one leftover byte plus two freshly read bytes at EOF
come out as a single 3-byte final chunk. -/
theorem nextCore_eof_final_chunk_witness :
    nextCore (NewChunker (NewParams 1 2 3 none)) (fun _ => []) [9] [5, 6]
        (some .eof) 0 =
      (.chunk ⟨0, (((([9] : List Byte).length + ([5, 6] : List Byte).length :
          Nat)) : Int), (fun (_ : List Byte) => ([] : List Byte))
          ([9] ++ [5, 6])⟩ ([9] ++ [5, 6]), [],
        0 + ((([9] : List Byte).length + ([5, 6] : List Byte).length :
          Nat) : Int)) ∧
    ∃ (ck' : Chunker) (pending' taken' : List Byte) (off' : Int) (c : Chunk)
      (d rest : List Byte) (o₂ : Int),
      taken' ≠ [] ∧
      nextCore ck' (fun _ => []) pending' taken' (some .eof) off' =
        (.chunk c d, rest, o₂) ∧
      ck'.P.MaxSize < c.Size :=
  nextCore_eof_final_chunk (NewChunker (NewParams 1 2 3 none)) (fun _ => [])
    [9] [5, 6] 0 (by decide)

/-! ## Lemmas about hash-keyed maps -/

/-- A freshly assigned key maps to the assigned value. -/
theorem lookup_mapInsert_self (m : ChunkMap) (k : String) (v : Chunk) :
    List.lookup k (mapInsert m k v) = some v := by
  simp [mapInsert, List.lookup]

/-- After `MemoryIndex.Add`, the chunk's hex hash exists in the index. -/
theorem memoryIndex_exists_add_self (m : MemoryIndex) (ch : Chunk) :
    (m.Add ch).Exists (hexEncode ch.Hash) = true := by
  simp [MemoryIndex.Add, MemoryIndex.Exists, lookup_mapInsert_self]

/-! ## Claim theorems: ChunkWriter -/

/-- Claim C3: `WriteChunk` on a chunk whose hash is already recorded in the
writer's index returns `(0, true, nil)` and leaves the whole writer state
(sink and index) unchanged; and after writing any chunk, a second chunk
with identical content (hence the identical digest) is reported as a
duplicate with 0 bytes written and the sink unchanged. -/
theorem writeChunk_dedup (cw : ChunkWriter) (ch : Chunk) (data : List Byte)
    (cw₀ : ChunkWriter) (c₁ c₂ : Chunk) (content : List Byte)
    (H : List Byte → List Byte)
    (hex : cw.index.Exists (hexEncode ch.Hash) = true)
    (h₁ : c₁.Hash = H content) (h₂ : c₂.Hash = H content) :
    cw.WriteChunk ch data = ((0, true, none), cw) ∧
    ((cw₀.WriteChunk c₁ content).2.WriteChunk c₂ content).1 =
      (0, true, none) ∧
    ((cw₀.WriteChunk c₁ content).2.WriteChunk c₂ content).2.sink =
      (cw₀.WriteChunk c₁ content).2.sink := by
  have hkey : hexEncode c₂.Hash = hexEncode c₁.Hash := by rw [h₁, h₂]
  refine ⟨by simp [ChunkWriter.WriteChunk, hex], ?_⟩
  cases hdup : cw₀.index.Exists (hexEncode c₁.Hash) with
  | false =>
    simp [ChunkWriter.WriteChunk, hdup, hkey, memoryIndex_exists_add_self]
  | true =>
    simp [ChunkWriter.WriteChunk, hdup, hkey]

/-- Witness for C3 on a concrete writer whose index already holds the empty
hash, and two concrete identical-content writes. -/
theorem writeChunk_dedup_witness :
    ChunkWriter.WriteChunk ⟨[], [("", ⟨0, 0, []⟩)], 0⟩ ⟨0, 0, []⟩ [7] =
      ((0, true, none), ⟨[], [("", ⟨0, 0, []⟩)], 0⟩) ∧
    ((ChunkWriter.WriteChunk NewChunkWriter ⟨0, 2, []⟩ [3, 4]).2.WriteChunk
      ⟨2, 2, []⟩ [3, 4]).1 = (0, true, none) ∧
    ((ChunkWriter.WriteChunk NewChunkWriter ⟨0, 2, []⟩ [3, 4]).2.WriteChunk
      ⟨2, 2, []⟩ [3, 4]).2.sink =
      (ChunkWriter.WriteChunk NewChunkWriter ⟨0, 2, []⟩ [3, 4]).2.sink :=
  writeChunk_dedup ⟨[], [("", ⟨0, 0, []⟩)], 0⟩ ⟨0, 0, []⟩ [7]
    NewChunkWriter ⟨0, 2, []⟩ ⟨2, 2, []⟩ [3, 4] (fun _ => [])
    (by decide) rfl rfl

/-! ## Claim theorems: FSStorage -/

/-- Claim C7: `FSStorage.Save` is idempotent — saving the same chunk twice
into a fresh store succeeds both times, leaves exactly one blob file named
by the hex hash, the second call changes nothing, and `Load` returns the
originally saved bytes after each call. -/
theorem fsStorage_save_idempotent (ch : Chunk) (data : List Byte) :
    (NewFSStorage.Save ch data).1 = none ∧
    ((NewFSStorage.Save ch data).2.Save ch data).1 = none ∧
    ((NewFSStorage.Save ch data).2.Save ch data).2 =
      (NewFSStorage.Save ch data).2 ∧
    (NewFSStorage.Save ch data).2.files = [(ch.HexHash, data)] ∧
    (NewFSStorage.Save ch data).2.Load ch.HexHash = .ok data ∧
    ((NewFSStorage.Save ch data).2.Save ch data).2.Load ch.HexHash =
      .ok data := by
  have h1 : NewFSStorage.Save ch data =
      (none, { files := [(ch.HexHash, data)],
               index := NewMemoryIndex.Add ch }) := by
    simp [FSStorage.Save, NewFSStorage, NewMemoryIndex, MemoryIndex.Exists,
      List.lookup, fsWrite, fsRemove, List.filter]
  have hex : (NewMemoryIndex.Add ch).Exists ch.HexHash = true :=
    memoryIndex_exists_add_self NewMemoryIndex ch
  have h2 : ({ files := [(ch.HexHash, data)],
               index := NewMemoryIndex.Add ch } : FSStorage).Save ch data =
      (none, { files := [(ch.HexHash, data)],
               index := NewMemoryIndex.Add ch }) := by
    simp [FSStorage.Save, hex]
  have h3 : ({ files := [(ch.HexHash, data)],
               index := NewMemoryIndex.Add ch } : FSStorage).Load ch.HexHash =
      .ok data := by
    simp [FSStorage.Load, hex, List.lookup]
  rw [h1]
  simp [h2, h3]

/-! ## Claim theorems: Index duplicate Add -/

/-- Claim C8, counterexample: adding a second chunk with the hash already
present overwrites the first entry — `Get` returns the second writer's
chunk, not the first one. -/
theorem index_add_second_overwrites :
    ((NewMemoryIndex.Add ⟨0, 1, [0xaa]⟩).Add ⟨5, 2, [0xaa]⟩).Get
        (hexEncode [(0xaa : Byte)]) = some ⟨5, 2, [0xaa]⟩ ∧
    ((NewMemoryIndex.Add ⟨0, 1, [0xaa]⟩).Add ⟨5, 2, [0xaa]⟩).Get
        (hexEncode [(0xaa : Byte)]) ≠ some ⟨0, 1, [0xaa]⟩ := by decide

/-- Claim C8 (amended): for both index implementations, calling `Add` with
a chunk whose hash is already present keeps one entry per distinct hash,
with the last writer winning: the entry stored for that hash after the
second `Add` is the second chunk. -/
theorem index_add_last_writer_wins (m : MemoryIndex) (store : ChunkMap)
    (c₁ c₂ : Chunk) (h : c₁.Hash = c₂.Hash) :
    ((m.Add c₁).Add c₂).Get (hexEncode c₁.Hash) = some c₂ ∧
    List.lookup (hexEncode c₁.Hash)
      (PersistentIndexJSON.Add (PersistentIndexJSON.Add store c₁) c₂) =
      some c₂ ∧
    (NewMemoryIndex.Add c₁).Add c₂ = [(hexEncode c₂.Hash, c₂)] := by
  have hk : hexEncode c₁.Hash = hexEncode c₂.Hash := by rw [h]
  refine ⟨?_, ?_, ?_⟩
  · rw [MemoryIndex.Get, MemoryIndex.Add, hk]
    exact lookup_mapInsert_self _ _ _
  · rw [PersistentIndexJSON.Add, hk]
    exact lookup_mapInsert_self _ _ _
  · simp [MemoryIndex.Add, NewMemoryIndex, mapInsert, hk, List.filter]

/-- Witness for the amended C8 at two concrete same-hash chunks. -/
theorem index_add_last_writer_wins_witness :
    ((NewMemoryIndex.Add ⟨0, 1, [0xbb]⟩).Add ⟨9, 3, [0xbb]⟩).Get
        (hexEncode (Chunk.mk 0 1 [0xbb]).Hash) = some ⟨9, 3, [0xbb]⟩ ∧
    List.lookup (hexEncode (Chunk.mk 0 1 [0xbb]).Hash)
      (PersistentIndexJSON.Add
        (PersistentIndexJSON.Add [] ⟨0, 1, [0xbb]⟩) ⟨9, 3, [0xbb]⟩) =
      some ⟨9, 3, [0xbb]⟩ ∧
    (NewMemoryIndex.Add ⟨0, 1, [0xbb]⟩).Add ⟨9, 3, [0xbb]⟩ =
      [(hexEncode (Chunk.mk 9 3 [0xbb]).Hash, ⟨9, 3, [0xbb]⟩)] :=
  index_add_last_writer_wins NewMemoryIndex [] ⟨0, 1, [0xbb]⟩ ⟨9, 3, [0xbb]⟩
    rfl

/-! ## Claim theorems: construction-time validation and reload errors -/

/-- Claim C4: `NewChunkReader` accepts the unsupported hash-algorithm name
"md5" without an error (only `Hasher.New`, called later inside `Next`,
rejects it) — contradicting the documented construction-time failure. -/
theorem newChunkReader_accepts_unsupported_algo :
    NewChunkReader "md5" 8 (NewChunker (NewParams 5 10 20 none)) =
      .ok ⟨"md5", 8, NewChunker (NewParams 5 10 20 none)⟩ ∧
    Hasher.New ⟨"md5"⟩ = .error "unsupported hash algorithm: md5" := by
  exact ⟨rfl, rfl⟩

/-- Claim C5: on a cache miss with a failing reload, `Exists` degrades to
`false`, but `ExistsWithErr` also returns `nil` instead of the reload
error — the error is discarded, contradicting the documented contract. -/
theorem existsWithErr_swallows_reload_error :
    PersistentIndexJSON.ExistsWithErr [] (.error "read failure") "ab" =
      (false, none) ∧
    PersistentIndexJSON.Exists [] (.error "read failure") "ab" = false := by
  exact ⟨rfl, rfl⟩

end Cdcgo
